import Mathlib

/-!
Verification of the fogis_api_client repository core against its
natural-language specification.

The development shallowly embeds the parts of the code the claims touch:

* a JSON value model together with a compact encoder and a parser
  (modelling the Python stdlib `json.dumps` / `json.loads` as used by
  `FogisApiClient._api_request`; `\uXXXX` escapes, whitespace skipping
  and floating point numbers are not modelled, since no claim exercises
  them);
* the response-unwrapping protocol and the lazy-login control flow of
  `FogisApiClient._api_request` (src/fogis_api_client/fogis_api_client.py);
* the per-operation response-shape handling of the DomainClient
  operations (`fetch_matches_list_json`, `fetch_match_json`,
  `fetch_match_events_json`, `delete_match_event`, `validate_cookies`,
  `report_match_event`);
* the `MatchListFilter` engine (src/fogis_api_client/match_list_filter.py)
  and the enums of src/fogis_api_client/enums.py.

Definitions are translated from the source; Python dictionaries are
modelled as association lists (first binding wins, as Python dicts have
unique keys), Python exceptions as `Except` error results, and Python
truthiness is modelled explicitly where the source relies on it.
-/

/-- JSON values, as produced by Python `json.loads`.  Numbers are
restricted to integers: the payloads handled by the client are built
from integers, strings, booleans, lists and objects. -/
inductive Json where
  | null : Json
  | bool (b : Bool) : Json
  | num (n : Int) : Json
  | str (s : String) : Json
  | arr (elems : List Json) : Json
  | obj (fields : List (String × Json)) : Json

/-- First-match association-list lookup, modelling Python dict access. -/
def lookupField : List (String × Json) → String → Option Json
  | [], _ => none
  | (k, v) :: rest, key => if k = key then some v else lookupField rest key

/-- The character for a single decimal digit. -/
def digitChar (d : Nat) : Char := Char.ofNat (48 + d)

/-- Decimal digits of a natural number, most significant first. -/
def natToChars (n : Nat) : List Char :=
  if _h : n < 10 then [digitChar n]
  else natToChars (n / 10) ++ [digitChar (n % 10)]
decreasing_by exact Nat.div_lt_self (by omega) (by omega)

/-- Decimal rendering of an integer, modelling Python `str`/`json.dumps`
on ints. -/
def intToChars (i : Int) : List Char :=
  if i < 0 then '-' :: natToChars i.natAbs else natToChars i.toNat

/-- JSON string-body escaping: quote and backslash are escaped, all other
characters pass through. -/
def escChars : List Char → List Char
  | [] => []
  | c :: cs => (if c = '"' ∨ c = '\\' then ['\\', c] else [c]) ++ escChars cs

mutual

/-- Compact JSON encoding of a value (Python `json.dumps` with
separators `","` and `":"`). -/
def encodeJson : Json → List Char
  | .null => "null".data
  | .bool true => "true".data
  | .bool false => "false".data
  | .num n => intToChars n
  | .str s => '"' :: (escChars s.data ++ ['"'])
  | .arr es => '[' :: encodeElems es
  | .obj fs => '{' :: encodeFields fs

/-- Encodes the elements of an array, up to and including the closing
bracket. -/
def encodeElems : List Json → List Char
  | [] => [']']
  | v :: vs =>
    encodeJson v ++ (match vs with
      | [] => [']']
      | _ :: _ => ',' :: encodeElems vs)

/-- Encodes the fields of an object, up to and including the closing
brace. -/
def encodeFields : List (String × Json) → List Char
  | [] => ['}']
  | (k, v) :: fs =>
    '"' :: (escChars k.data ++ ['"', ':'] ++ encodeJson v ++ (match fs with
      | [] => ['}']
      | _ :: _ => ',' :: encodeFields fs))

end

/-- String-body scanning loop; the flag records a pending backslash
escape.  Consumes one character per step. -/
def pStrLoop : Bool → List Char → Option (List Char × List Char)
  | _, [] => none
  | true, e :: rest =>
    if e = '"' ∨ e = '\\' then (pStrLoop false rest).map (fun p => (e :: p.1, p.2))
    else none
  | false, c :: rest =>
    if c = '"' then some ([], rest)
    else if c = '\\' then pStrLoop true rest
    else (pStrLoop false rest).map (fun p => (c :: p.1, p.2))

/-- Parses the body of a JSON string, with the two escapes the encoder
produces; returns the decoded characters and the input after the
closing quote. -/
def pStrChars : List Char → Option (List Char × List Char) :=
  pStrLoop false

/-- Value of a list of decimal digit characters. -/
def digitsToNat (ds : List Char) : Nat :=
  ds.foldl (fun a c => 10 * a + (c.toNat - 48)) 0

/-- Parses a nonempty run of digits as a natural number. -/
def pNumCore (cs : List Char) : Option (Nat × List Char) :=
  if (cs.takeWhile Char.isDigit).isEmpty then none
  else some (digitsToNat (cs.takeWhile Char.isDigit), cs.dropWhile Char.isDigit)

/-- Parses a JSON integer literal at the head of the input. -/
def pNum (cs : List Char) : Option (Json × List Char) :=
  if cs.head? = some '-' then (pNumCore cs.tail).map (fun p => (.num (-(p.1 : Int)), p.2))
  else (pNumCore cs).map (fun p => (.num (p.1 : Int), p.2))

/-- Consumes an expected literal character sequence. -/
def expectLit : List Char → List Char → Option (List Char)
  | [], cs => some cs
  | l :: ls, c :: cs => if c = l then expectLit ls cs else none
  | _ :: _, [] => none

/-- Parses a comma-separated run of values closed by a bracket, given a
parser `p` for single values; the fuel bounds the number of elements. -/
def pElems (p : List Char → Option (Json × List Char)) :
    Nat → List Char → Option (List Json × List Char)
  | 0, _ => none
  | n + 1, cs =>
    match p cs with
    | none => none
    | some (v, r) =>
      if r.head? = some ',' then (pElems p n r.tail).map (fun q => (v :: q.1, q.2))
      else if r.head? = some ']' then some ([v], r.tail)
      else none

/-- Parses a comma-separated run of string-keyed fields closed by a
brace, given a parser `p` for values. -/
def pFields (p : List Char → Option (Json × List Char)) :
    Nat → List Char → Option (List (String × Json) × List Char)
  | 0, _ => none
  | n + 1, cs =>
    if cs.head? = some '"' then
      match pStrChars cs.tail with
      | none => none
      | some (k, r) =>
        if r.head? = some ':' then
          match p r.tail with
          | none => none
          | some (v, r3) =>
            if r3.head? = some ',' then
              (pFields p n r3.tail).map (fun q => ((String.mk k, v) :: q.1, q.2))
            else if r3.head? = some '}' then some ([(String.mk k, v)], r3.tail)
            else none
        else none
    else none

/-- Fueled JSON value parser, dispatching on the head character; fuel
larger than the input length always suffices. -/
def pVal : Nat → List Char → Option (Json × List Char)
  | 0, _ => none
  | fuel + 1, cs =>
    match cs with
    | [] => none
    | c :: rest =>
      if c = 'n' then (expectLit ['u', 'l', 'l'] rest).map (fun r => (.null, r))
      else if c = 't' then (expectLit ['r', 'u', 'e'] rest).map (fun r => (.bool true, r))
      else if c = 'f' then (expectLit ['a', 'l', 's', 'e'] rest).map (fun r => (.bool false, r))
      else if c = '"' then (pStrChars rest).map (fun p => (.str (String.mk p.1), p.2))
      else if c = '[' then
        if rest.head? = some ']' then some (.arr [], rest.tail)
        else (pElems (pVal fuel) fuel rest).map (fun p => (.arr p.1, p.2))
      else if c = '{' then
        if rest.head? = some '}' then some (.obj [], rest.tail)
        else (pFields (pVal fuel) fuel rest).map (fun p => (.obj p.1, p.2))
      else if c = '-' ∨ c.isDigit then pNum (c :: rest)
      else none

/-- Python `json.loads`, modelled for the compact JSON fragment: the
whole input must be consumed by a single value. -/
def json_loads (s : String) : Option Json :=
  match pVal (s.data.length + 1) s.data with
  | some (v, []) => some v
  | _ => none

/-- Python `json.dumps` (compact separators), as a `String`. -/
def json_dumps (v : Json) : String := String.mk (encodeJson v)

/-- The exception taxonomy of src/fogis_api_client/fogis_api_client.py:
`FogisLoginError`, `FogisAPIRequestError`, `FogisDataError`, plus
Python's built-in `ValueError` raised by the required-field checks and
the unsupported-method branch. -/
inductive FogisError where
  | loginError (msg : String)
  | apiRequestError (msg : String)
  | dataError (msg : String)
  | valueError (msg : String)
deriving DecidableEq, Repr

/-- Response unwrapping of `FogisApiClient._api_request` (lines
1256-1278): a `"d"`-keyed value that is a string is parsed a second
time, falling back to the raw string when that parse fails; a
structured `"d"` value is returned directly; a body without a `"d"` key
is returned whole.  The source applies this to the parsed response
body, which the remote always delivers as a JSON object. -/
def unwrap_response (body : Json) : Json :=
  match body with
  | .obj fields =>
    match lookupField fields "d" with
    | some (.str s) =>
      match json_loads s with
      | some v => v
      | none => .str s
    | some v => v
    | none => .obj fields
  | other => other

/-- Python `str.endswith`, on the underlying character lists. -/
def pyEndsWith (s suffix : String) : Bool :=
  suffix.data.isSuffixOf s.data

/-- Bool-valued contiguous-sublist check. -/
def listInfixOf (needle : List Char) : List Char → Bool
  | [] => needle.isEmpty
  | c :: rest => needle.isPrefixOf (c :: rest) || listInfixOf needle rest

/-- Python `sub in s` substring containment. -/
def pyContains (s sub : String) : Bool :=
  listInfixOf sub.data s.data

/-- The mutable authentication state of a `FogisApiClient`: the optional
username and the optional cookie jar (`self.cookies`). -/
structure ApiState where
  username : Option String
  cookies : Option (List (String × String))
deriving DecidableEq, Repr

/-- Python truthiness of `self.cookies`: `None` and the empty dict are
falsy. -/
def truthy_cookies : Option (List (String × String)) → Bool
  | none => false
  | some c => !c.isEmpty

/-- Observable actions performed by `_api_request`: an authentication
attempt (a call to `login()`), or the RPC HTTP request itself, recorded
together with whether a session token was held when it was issued. -/
inductive Event where
  | authAttempt
  | rpc (hasToken : Bool)
deriving DecidableEq, Repr

/-- Outcome of the `login()` call made by the lazy-login step:
credential or form failure (`FogisLoginError`), transport failure
(`FogisAPIRequestError`), or success with the cookie jar the login
materialized. -/
inductive LoginOutcome where
  | loginFail (msg : String)
  | netFail (msg : String)
  | success (cookies : List (String × String))
deriving DecidableEq, Repr

/-- Outcome of the HTTP round trip performed for the RPC call: network
or HTTP-status failure (`requests.exceptions.RequestException`), a body
that is not valid JSON (`json.JSONDecodeError`), or a parsed JSON
body. -/
inductive RpcOutcome where
  | netFail (msg : String)
  | badJson (msg : String)
  | ok (body : Json)

/-- The canned body returned by the test-only mock branch of
`_api_request` (line 1207): `{"matcher": []}`. -/
def mockMatchListBody : Json := .obj [("matcher", .arr [])]

/-- `FogisApiClient._api_request` (lines 1178-1287), as a function of
the client state and the outcomes of its two external effects (the
`login()` call and the HTTP request).  Returns the ordered list of
observable events, the result (normal payload or raised error), and the
state after the call.  The request headers and bodies are not modelled;
the control flow, the unsupported-method `ValueError`, the test-only
mock branch, the lazy-login logic and the response unwrapping are. -/
def api_request (st : ApiState) (url : String) (method : String)
    (loginOutcome : LoginOutcome) (rpcOutcome : RpcOutcome) :
    List Event × Except FogisError Json × ApiState :=
  if (match st.username with
      | some u => pyContains u "test"
      | none => false) && pyEndsWith url "HamtaMatchLista" then
    ([], .ok mockMatchListBody, st)
  else
    match (if truthy_cookies st.cookies then
            ([], Except.ok st)
          else
            match loginOutcome with
            | .loginFail m => ([Event.authAttempt], Except.error (FogisError.loginError m))
            | .netFail m => ([Event.authAttempt], Except.error (FogisError.apiRequestError m))
            | .success c =>
              if c.isEmpty then
                ([Event.authAttempt],
                 Except.error (FogisError.loginError "Automatic login failed."))
              else
                ([Event.authAttempt], Except.ok { st with cookies := some c })) with
    | (authTrace, .error e) => (authTrace, .error e, st)
    | (authTrace, .ok st2) =>
      if method = "POST" ∨ method = "GET" then
        match rpcOutcome with
        | .netFail m =>
          (authTrace ++ [Event.rpc (truthy_cookies st2.cookies)],
           .error (.apiRequestError ("API request failed: " ++ m)), st2)
        | .badJson m =>
          (authTrace ++ [Event.rpc (truthy_cookies st2.cookies)],
           .error (.dataError ("Failed to parse API response: " ++ m)), st2)
        | .ok body =>
          (authTrace ++ [Event.rpc (truthy_cookies st2.cookies)],
           .ok (unwrap_response body), st2)
      else
        (authTrace, .error (.valueError ("Unsupported HTTP method: " ++ method)), st2)

/-- Base URL constant of `FogisApiClient`. -/
def BASE_URL : String := "https://fogis.svenskfotboll.se/mdk"

/-- The RPC endpoint URLs used by the DomainClient operations, as built
in src/fogis_api_client/fogis_api_client.py. -/
def opUrls : List String :=
  [ BASE_URL ++ "/MatchWebMetoder.aspx/GetMatcherAttRapportera"
  , BASE_URL ++ "/MatchWebMetoder.aspx/GetMatch"
  , BASE_URL ++ "/MatchWebMetoder.aspx/GetMatchdeltagareLista"
  , BASE_URL ++ "/MatchWebMetoder.aspx/GetMatchfunktionarerLista"
  , BASE_URL ++ "/MatchWebMetoder.aspx/GetMatchhandelselista"
  , BASE_URL ++ "/MatchWebMetoder.aspx/GetMatchdeltagareListaForMatchlag"
  , BASE_URL ++ "/MatchWebMetoder.aspx/GetMatchlagledareListaForMatchlag"
  , BASE_URL ++ "/MatchWebMetoder.aspx/SparaMatchhandelse"
  , BASE_URL ++ "/MatchWebMetoder.aspx/GetMatchresultatlista"
  , BASE_URL ++ "/MatchWebMetoder.aspx/SparaMatchresultatLista"
  , BASE_URL ++ "/MatchWebMetoder.aspx/RaderaMatchhandelse"
  , BASE_URL ++ "/MatchWebMetoder.aspx/SparaMatchlagledare"
  , BASE_URL ++ "/MatchWebMetoder.aspx/ClearMatchEvents"
  , BASE_URL ++ "/MatchWebMetoder.aspx/SparaMatchGodkannDomarrapport" ]

/-- Python type name of a JSON value, used in the error messages of the
shape checks. -/
def pyTypeName : Json → String
  | .null => "NoneType"
  | .bool _ => "bool"
  | .num _ => "int"
  | .str _ => "str"
  | .arr _ => "list"
  | .obj _ => "dict"

/-- Python truthiness of a decoded JSON value. -/
def pyTruthy : Json → Bool
  | .null => false
  | .bool b => b
  | .num n => n != 0
  | .str s => !s.isEmpty
  | .arr es => !es.isEmpty
  | .obj fs => !fs.isEmpty

/-- Match-list extraction of `FogisApiClient.fetch_matches_list_json`
(lines 383-387): starts from an empty list and replaces it with the
`"matchlista"` value only when the unwrapped payload is a truthy dict
containing that key; no other shape raises. -/
def fetch_matches_list_extract (responseData : Json) : Json :=
  match responseData with
  | .obj fields =>
    if pyTruthy (.obj fields) && (lookupField fields "matchlista").isSome then
      (lookupField fields "matchlista").getD (.arr [])
    else .arr []
  | _ => .arr []

/-- Shape check of `FogisApiClient.fetch_match_json` (lines 416-424): a
dict is returned as the match, anything else raises `FogisDataError`. -/
def fetch_match_extract (responseData : Json) : Except FogisError Json :=
  match responseData with
  | .obj fields => .ok (.obj fields)
  | other =>
    .error (.dataError ("Expected dictionary response but got " ++ pyTypeName other))

/-- Shape check of `FogisApiClient.fetch_match_events_json` (lines
546-555): a list is returned, anything else raises `FogisDataError`. -/
def fetch_match_events_extract (responseData : Json) : Except FogisError Json :=
  match responseData with
  | .arr es => .ok (.arr es)
  | other =>
    .error (.dataError ("Expected list response but got " ++ pyTypeName other))

/-- `fetch_matches_list_json` as a function of the `_api_request`
result: errors propagate, any payload shape yields a normal return. -/
def fetch_matches_list_result (r : Except FogisError Json) : Except FogisError Json :=
  match r with
  | .error e => .error e
  | .ok rd => .ok (fetch_matches_list_extract rd)

/-- `fetch_match_json` as a function of the `_api_request` result. -/
def fetch_match_result (r : Except FogisError Json) : Except FogisError Json :=
  match r with
  | .error e => .error e
  | .ok rd => fetch_match_extract rd

/-- `fetch_match_events_json` as a function of the `_api_request`
result. -/
def fetch_match_events_result (r : Except FogisError Json) : Except FogisError Json :=
  match r with
  | .error e => .error e
  | .ok rd => fetch_match_events_extract rd

/-- `FogisApiClient.delete_match_event` (lines 888-912) as a function of
the `_api_request` result: a `None` payload means success, a dict with a
`"success"` key is interpreted by truthiness, other shapes yield
`False`; `FogisAPIRequestError` and `FogisDataError` are caught and
converted to the normal return `False`, while other errors (notably
`FogisLoginError`) propagate. -/
def delete_match_event_result (r : Except FogisError Json) : Except FogisError Bool :=
  match r with
  | .ok .null => .ok true
  | .ok (.obj fields) =>
    match lookupField fields "success" with
    | some v => .ok (pyTruthy v)
    | none => .ok false
  | .ok _ => .ok false
  | .error (.apiRequestError _) => .ok false
  | .error (.dataError _) => .ok false
  | .error e => .error e

/-- `FogisApiClient.validate_cookies` (lines 1036-1072) as a function of
the held cookies and the `_api_request` result: without truthy cookies
it returns `False` immediately; otherwise a successful request means
`True`, `FogisLoginError` and `FogisAPIRequestError` are caught and
converted to `False`, and any other error (notably `FogisDataError`)
propagates. -/
def validate_cookies_result (cookies : Option (List (String × String)))
    (r : Except FogisError Json) : Except FogisError Bool :=
  if !truthy_cookies cookies then .ok false
  else
    match r with
    | .ok _ => .ok true
    | .error (.loginError _) => .ok false
    | .error (.apiRequestError _) => .ok false
    | .error e => .error e

/-- Values appearing in a caller-supplied event record
(`EventDict`): Python ints, strings, `None`, and booleans. -/
inductive PyVal where
  | vInt (n : Int)
  | vStr (s : String)
  | vNone
  | vBool (b : Bool)
deriving DecidableEq, Repr

/-- A caller-supplied record, modelled as an association list with
unique keys (a Python dict). -/
def PyRecord := List (String × PyVal)

/-- First-match lookup in a record. -/
def lookupRec : List (String × PyVal) → String → Option PyVal
  | [], _ => none
  | (k, v) :: rest, key => if k = key then some v else lookupRec rest key

/-- In-place update of an existing key (`d[field] = value`); keys not
present are unaffected, which matches the guarded use in the source
(`if field in event_data_copy`). -/
def updateRec : List (String × PyVal) → String → PyVal → List (String × PyVal)
  | [], _, _ => []
  | (k, w) :: rest, field, v =>
    (k, if k = field then v else w) :: updateRec rest field v

/-- Python `int(s)` on a string: an optional sign followed by decimal
digits; anything else raises `ValueError`.  (Surrounding whitespace and
a leading `+`, which Python also accepts, are not modelled.) -/
def pyIntOfString (s : String) : Option Int :=
  match s.data with
  | '-' :: ds =>
    if !ds.isEmpty && ds.all Char.isDigit then some (-(digitsToNat ds : Int)) else none
  | ds =>
    if !ds.isEmpty && ds.all Char.isDigit then some (digitsToNat ds) else none

/-- The required fields of `report_match_event` (line 691). -/
def requiredEventFields : List String := ["matchid", "handelsekod", "minut", "lagid"]

/-- The numeric fields coerced by `report_match_event` (lines 702-712). -/
def numericEventFields : List String :=
  ["matchid", "handelsekod", "minut", "lagid", "personid", "assisterandeid",
   "period", "resultatHemma", "resultatBorta"]

/-- One iteration of the coercion loop of `report_match_event` (lines
713-718): a present, non-`None` field that is a string is replaced by
`int(value)` (raising `ValueError` on a non-numeric string), an int is
kept, and any other value is left untouched. -/
def coerceNumericField (r : List (String × PyVal)) (field : String) :
    Except FogisError (List (String × PyVal)) :=
  match lookupRec r field with
  | none => .ok r
  | some .vNone => .ok r
  | some (.vStr s) =>
    match pyIntOfString s with
    | some n => .ok (updateRec r field (.vInt n))
    | none => .error (.valueError ("invalid literal for int: " ++ s))
  | some (.vInt n) => .ok (updateRec r field (.vInt n))
  | some _ => .ok r

/-- The payload construction of `FogisApiClient.report_match_event`
(lines 688-720): required fields are checked first (`ValueError` when
one is missing), then a copy of the record has its numeric fields
coerced to integers.  The returned record is the payload handed to
`_api_request`; the caller's record is the unmodified input `ev`. -/
def report_match_event_payload (ev : List (String × PyVal)) :
    Except FogisError (List (String × PyVal)) :=
  match requiredEventFields.find? (fun f => (lookupRec ev f).isNone) with
  | some f => .error (.valueError ("Missing required field " ++ f ++ " in event data"))
  | none =>
    numericEventFields.foldlM coerceNumericField ev

/-- The match statuses of src/fogis_api_client/enums.py. -/
inductive MatchStatus where
  | interrupted
  | postponed
  | cancelled
  | completed
  | notStarted
deriving DecidableEq, Repr

/-- The wire value of a status (`MatchStatus.value`). -/
def MatchStatus.value : MatchStatus → String
  | .interrupted => "avbruten"
  | .postponed => "uppskjuten"
  | .cancelled => "installd"
  | .completed => "genomford"
  | .notStarted => "ej_startad"

/-- The age categories of src/fogis_api_client/enums.py. -/
inductive AgeCategory where
  | undefined
  | children
  | youth
  | senior
  | veterans
deriving DecidableEq, Repr

/-- The wire value of an age category. -/
def AgeCategory.value : AgeCategory → Int
  | .undefined => 1
  | .children => 2
  | .youth => 3
  | .senior => 4
  | .veterans => 5

/-- The genders of src/fogis_api_client/enums.py. -/
inductive Gender where
  | male
  | female
  | mixed
deriving DecidableEq, Repr

/-- The wire value of a gender. -/
def Gender.value : Gender → Int
  | .male => 2
  | .female => 3
  | .mixed => 4

/-- The football types of src/fogis_api_client/enums.py. -/
inductive FootballType where
  | football
  | futsal
deriving DecidableEq, Repr

/-- The wire value of a football type. -/
def FootballType.value : FootballType → Int
  | .football => 1
  | .futsal => 2

/-- The attributes of a fetched match dict that
`MatchListFilter.filter_matches` inspects via `.get`: four status flags
(absent keys read as falsy) and three optional classification ids. -/
structure MatchRecord where
  installd : Bool := false
  avbruten : Bool := false
  uppskjuten : Bool := false
  arslutresultat : Bool := false
  tavlingAlderskategori : Option Int := none
  tavlingKonId : Option Int := none
  fotbollstypid : Option Int := none
deriving DecidableEq, Repr

/-- The filter configuration held by a `MatchListFilter` instance: for
each of the four fields an optional include list and an optional
exclude list (`None` meaning "not configured"), plus the server-side
date range. -/
structure MatchListFilter where
  status_include : Option (List MatchStatus) := none
  status_exclude : Option (List MatchStatus) := none
  alderskategori_include : Option (List AgeCategory) := none
  alderskategori_exclude : Option (List AgeCategory) := none
  kon_include : Option (List Gender) := none
  kon_exclude : Option (List Gender) := none
  fotbollstypid_include : Option (List FootballType) := none
  fotbollstypid_exclude : Option (List FootballType) := none
  datum_fran : Option String := none
  datum_till : Option String := none
deriving DecidableEq, Repr

/-- Status inclusion predicate of `filter_matches` (lines 129-135): a
match is kept when one of the four tested flags is set and the
corresponding wire value lies in the configured set; no condition tests
for `"ej_startad"`. -/
def statusIncludePred (vals : List String) (m : MatchRecord) : Bool :=
  (m.installd && vals.contains "installd") ||
  (m.avbruten && vals.contains "avbruten") ||
  (m.uppskjuten && vals.contains "uppskjuten") ||
  (m.arslutresultat && vals.contains "genomford")

/-- Status exclusion predicate of `filter_matches` (lines 141-146): a
match is dropped when one of the three tested flags is set and its wire
value lies in the configured set. -/
def statusExcludePred (vals : List String) (m : MatchRecord) : Bool :=
  !((vals.contains "installd" && m.installd) ||
    (vals.contains "avbruten" && m.avbruten) ||
    (vals.contains "uppskjuten" && m.uppskjuten))

/-- Membership of an optional attribute in a configured value set
(`match.get(key) in allowed`): an absent attribute is never a member. -/
def optMem (o : Option Int) (vals : List Int) : Bool :=
  match o with
  | some v => vals.contains v
  | none => false

/-- One conditional filtering stage of `filter_matches`: skipped when
the field is not configured (`None`), otherwise a list filter. -/
def optStage (o : Option (List α)) (pred : List α → MatchRecord → Bool)
    (ms : List MatchRecord) : List MatchRecord :=
  match o with
  | none => ms
  | some l => ms.filter (pred l)

/-- `MatchListFilter.filter_matches` (lines 121-188): the eight
conditional stages applied in source order to a copy of the input
list. -/
def filter_matches (f : MatchListFilter) (matchList : List MatchRecord) :
    List MatchRecord :=
  let ms := matchList
  let ms := optStage f.status_include
    (fun l => statusIncludePred (l.map MatchStatus.value)) ms
  let ms := optStage f.status_exclude
    (fun l => statusExcludePred (l.map MatchStatus.value)) ms
  let ms := optStage f.alderskategori_include
    (fun l m => optMem m.tavlingAlderskategori (l.map AgeCategory.value)) ms
  let ms := optStage f.alderskategori_exclude
    (fun l m => !optMem m.tavlingAlderskategori (l.map AgeCategory.value)) ms
  let ms := optStage f.kon_include
    (fun l m => optMem m.tavlingKonId (l.map Gender.value)) ms
  let ms := optStage f.kon_exclude
    (fun l m => !optMem m.tavlingKonId (l.map Gender.value)) ms
  let ms := optStage f.fotbollstypid_include
    (fun l m => optMem m.fotbollstypid (l.map FootballType.value)) ms
  let ms := optStage f.fotbollstypid_exclude
    (fun l m => !optMem m.fotbollstypid (l.map FootballType.value)) ms
  ms

/-- The same configuration with every exclude list cleared. -/
def includeOnly (f : MatchListFilter) : MatchListFilter :=
  { f with status_exclude := none, alderskategori_exclude := none,
           kon_exclude := none, fotbollstypid_exclude := none }

/-- The same configuration with every include list cleared. -/
def excludeOnly (f : MatchListFilter) : MatchListFilter :=
  { f with status_include := none, alderskategori_include := none,
           kon_include := none, fotbollstypid_include := none }

/-- Values of a server-side payload entry built by `build_payload`. -/
inductive PayloadVal where
  | pvStr (s : String)
  | pvStrList (l : List String)
  | pvIntList (l : List Int)
deriving DecidableEq, Repr

/-- Python truthiness of an optional list attribute. -/
def truthyOptList (o : Option (List α)) : Bool :=
  match o with
  | none => false
  | some l => !l.isEmpty

/-- Wire values of an optional enum list, empty when unset. -/
def optListVals (o : Option (List α)) (value : α → β) : List β :=
  match o with
  | none => []
  | some l => l.map value

/-- `MatchListFilter.build_payload` (lines 91-119): each configured
criterion is conditionally appended, in source order, with a truthy
include list taking precedence over the exclude list for the same
field.  The function performs no validation and has no failure path. -/
def build_payload (f : MatchListFilter) : List (String × PayloadVal) :=
  (match f.datum_fran with
   | some s => if !s.isEmpty then [("datumFran", PayloadVal.pvStr s)] else []
   | none => []) ++
  (match f.datum_till with
   | some s => if !s.isEmpty then [("datumTill", PayloadVal.pvStr s)] else []
   | none => []) ++
  (if truthyOptList f.status_include || truthyOptList f.status_exclude then
    [("status", PayloadVal.pvStrList
      (if truthyOptList f.status_include then
        optListVals f.status_include MatchStatus.value
       else if truthyOptList f.status_exclude then
        optListVals f.status_exclude MatchStatus.value
       else []))]
   else []) ++
  (if truthyOptList f.alderskategori_include || truthyOptList f.alderskategori_exclude then
    [("alderskategori", PayloadVal.pvIntList
      (if truthyOptList f.alderskategori_include then
        optListVals f.alderskategori_include AgeCategory.value
       else if truthyOptList f.alderskategori_exclude then
        optListVals f.alderskategori_exclude AgeCategory.value
       else []))]
   else []) ++
  (if truthyOptList f.kon_include || truthyOptList f.kon_exclude then
    [("kon", PayloadVal.pvIntList
      (if truthyOptList f.kon_include then
        optListVals f.kon_include Gender.value
       else if truthyOptList f.kon_exclude then
        optListVals f.kon_exclude Gender.value
       else []))]
   else [])

/-- First-match lookup in a payload. -/
def lookupPayload : List (String × PayloadVal) → String → Option PayloadVal
  | [], _ => none
  | (k, v) :: rest, key => if k = key then some v else lookupPayload rest key

/-- Discriminator: is the value a JSON object (a Python dict)? -/
def isObjB : Json → Bool
  | .obj _ => true
  | _ => false

/-- Discriminator: is the value a JSON array (a Python list)? -/
def isArrB : Json → Bool
  | .arr _ => true
  | _ => false

/-- Does the unwrapped payload have the shape `fetch_matches_list_json`
looks for: a dict containing the `"matchlista"` key? -/
def matchesListShape : Json → Bool
  | .obj fields => (lookupField fields "matchlista").isSome
  | _ => false

/-- Modelled from the spec: the "invalid date ordering" violation of the
validation policy of §4.4 — both dates configured and the end date
strictly before the start date (ISO dates compare lexicographically,
here on the underlying character lists). -/
def hasDateOrderViolation (f : MatchListFilter) : Prop :=
  ∃ df dt, f.datum_fran = some df ∧ f.datum_till = some dt ∧ dt.data < df.data

/-- A configuration whose date range is reversed (start after end). -/
def badDateCfg : MatchListFilter :=
  { datum_fran := some "2024-12-31", datum_till := some "2024-01-01" }

/-- A configuration with the same status in both the include and the
exclude set. -/
def bothStatusCfg : MatchListFilter :=
  { status_include := some [MatchStatus.cancelled],
    status_exclude := some [MatchStatus.cancelled] }

/-- The same configuration with only the include set. -/
def onlyIncludeStatusCfg : MatchListFilter :=
  { status_include := some [MatchStatus.cancelled] }

/-- A fetched match whose `installd` (cancelled) flag is set. -/
def cancelledMatch : MatchRecord := { installd := true }

/-- Can the value survive the numeric coercion of `report_match_event`
and come out an integer: an int, or a string `int()` accepts? -/
def intableVal : PyVal → Bool
  | .vInt _ => true
  | .vStr s => (pyIntOfString s).isSome
  | _ => false

/-- The value the coercion loop of `report_match_event` produces for a
present field value. -/
def expectedCoerce : PyVal → PyVal
  | .vInt n => .vInt n
  | .vStr s =>
    match pyIntOfString s with
    | some n => .vInt n
    | none => .vStr s
  | .vNone => .vNone
  | v => v

/-- The continuation after a parsed value must not begin with a digit,
so that a preceding number literal cannot absorb it. -/
def digitFree (rest : List Char) : Prop :=
  ∀ c, rest.head? = some c → c.isDigit = false

/-- The spec's example event record, with `matchid` supplied as a
numeric string. -/
def exampleEvent : List (String × PyVal) :=
  [("matchid", .vStr "12345"), ("handelsekod", .vInt 6),
   ("minut", .vInt 35), ("lagid", .vInt 22222)]

theorem optStage_none (pred : List α → MatchRecord → Bool) (ms : List MatchRecord) :
    optStage none pred ms = ms := rfl

theorem optStage_nil (o : Option (List α)) (pred : List α → MatchRecord → Bool) :
    optStage o pred [] = [] := by
  cases o <;> rfl

theorem optStage_comm (o : Option (List α)) (o' : Option (List β))
    (p : List α → MatchRecord → Bool) (p' : List β → MatchRecord → Bool)
    (ms : List MatchRecord) :
    optStage o p (optStage o' p' ms) = optStage o' p' (optStage o p ms) := by
  cases o with
  | none => rfl
  | some l =>
    cases o' with
    | none => rfl
    | some l' =>
      simp only [optStage, List.filter_filter]
      exact List.filter_congr (fun x _ => Bool.and_comm _ _)

/-- C9: applying `filter_matches` with no configured fields returns any
non-empty input list unchanged (it holds for the empty list as well:
every stage is skipped and the defensive copy is the identity). -/
theorem filter_matches_identity (ms : List MatchRecord) (_hne : ms ≠ []) :
    filter_matches {} ms = ms := rfl

theorem filter_matches_identity_witness :
    ([cancelledMatch] : List MatchRecord) ≠ [] ∧
      filter_matches {} [cancelledMatch] = [cancelledMatch] :=
  ⟨by decide, filter_matches_identity [cancelledMatch] (by decide)⟩

/-- C10: when the status include-set is configured and contains only
`MatchStatus.notStarted` (`"ej_startad"`), `filter_matches` returns the
empty list for every input: the inclusion logic tests only the
`installd`, `avbruten`, `uppskjuten` and `arslutresultat` flags and has
no condition matching `"ej_startad"`. -/
theorem filter_matches_notStarted_include_empty (f : MatchListFilter)
    (l : List MatchStatus) (hcfg : f.status_include = some l)
    (honly : ∀ s ∈ l, s = MatchStatus.notStarted) (ms : List MatchRecord) :
    filter_matches f ms = [] := by
  have hvals : ∀ x ∈ l.map MatchStatus.value, x = "ej_startad" := by
    intro x hx
    rcases List.mem_map.mp hx with ⟨s, hs, rfl⟩
    rw [honly s hs]
    rfl
  have hni : ∀ x : String, x ≠ "ej_startad" →
      (l.map MatchStatus.value).contains x = false := by
    intro x hx
    rw [Bool.eq_false_iff]
    intro hc
    exact hx (hvals x (List.elem_iff.mp hc))
  have hpred : ∀ m : MatchRecord,
      statusIncludePred (l.map MatchStatus.value) m = false := by
    intro m
    simp only [statusIncludePred, hni "installd" (by decide), hni "avbruten" (by decide),
      hni "uppskjuten" (by decide), hni "genomford" (by decide),
      Bool.and_false, Bool.or_false]
  have hstage : optStage f.status_include
      (fun l => statusIncludePred (l.map MatchStatus.value)) ms = [] := by
    rw [hcfg]
    simp only [optStage]
    exact List.filter_eq_nil_iff.mpr (fun m _ => by simp [hpred m])
  simp only [filter_matches, hstage, optStage_nil]

theorem filter_matches_notStarted_include_empty_witness :
    ({ status_include := some [MatchStatus.notStarted] } :
        MatchListFilter).status_include = some [MatchStatus.notStarted] ∧
      filter_matches { status_include := some [MatchStatus.notStarted] }
        [cancelledMatch] = [] :=
  ⟨rfl, filter_matches_notStarted_include_empty
    { status_include := some [MatchStatus.notStarted] }
    [MatchStatus.notStarted] rfl (by decide) [cancelledMatch]⟩

/-- C1 fails on the code: with `installd` both included and excluded,
`filter_matches` differs from the include-only configuration — the
exclude-set removes the match the include-set kept, so it is not
ignored. -/
theorem filter_matches_both_sets_counterexample :
    filter_matches bothStatusCfg [cancelledMatch] ≠
      filter_matches onlyIncludeStatusCfg [cancelledMatch] := by
  decide

/-- C1 amended: when both an include-set and an exclude-set are
configured for a field, `filter_matches` applies both filters rather
than ignoring the exclude-set: the result is the include-only result
further filtered by the exclude-only configuration.  (Include-set
precedence exists only in the server-side `build_payload`.) -/
theorem filter_matches_include_then_exclude (f : MatchListFilter)
    (ms : List MatchRecord) :
    filter_matches f ms =
      filter_matches (excludeOnly f) (filter_matches (includeOnly f) ms) := by
  simp only [filter_matches, includeOnly, excludeOnly, optStage_none]
  conv_rhs =>
    rw [optStage_comm f.status_exclude f.fotbollstypid_include,
        optStage_comm f.status_exclude f.kon_include,
        optStage_comm f.status_exclude f.alderskategori_include,
        optStage_comm f.alderskategori_exclude f.fotbollstypid_include,
        optStage_comm f.alderskategori_exclude f.kon_include,
        optStage_comm f.kon_exclude f.fotbollstypid_include]

/-- C2 fails on the code: a configuration with a reversed date range (a
date-ordering violation) builds a payload normally; `build_payload` has
no validation and no failure path of any kind, so no aggregated
validation error (nor any error) is ever raised at build time. -/
theorem build_payload_no_validation_counterexample :
    hasDateOrderViolation badDateCfg ∧
      build_payload badDateCfg =
        [("datumFran", PayloadVal.pvStr "2024-12-31"),
         ("datumTill", PayloadVal.pvStr "2024-01-01")] :=
  ⟨⟨"2024-12-31", "2024-01-01", rfl, rfl, by decide⟩, rfl⟩

/-- C2 amended: `build_payload` performs no validation: it always
returns a payload, and whenever both dates are configured (non-empty)
the payload simply carries them as given, regardless of their
ordering or of any other violation. -/
theorem build_payload_carries_dates (f : MatchListFilter) (df dt : String)
    (hf : f.datum_fran = some df) (hfne : df ≠ "")
    (ht : f.datum_till = some dt) (htne : dt ≠ "") :
    lookupPayload (build_payload f) "datumFran" = some (.pvStr df) ∧
      lookupPayload (build_payload f) "datumTill" = some (.pvStr dt) := by
  have h1 : df.isEmpty = false := by
    rw [Bool.eq_false_iff]
    simpa [String.isEmpty_iff] using hfne
  have h2 : dt.isEmpty = false := by
    rw [Bool.eq_false_iff]
    simpa [String.isEmpty_iff] using htne
  simp [build_payload, hf, ht, h1, h2, lookupPayload]

theorem build_payload_carries_dates_witness :
    badDateCfg.datum_fran = some "2024-12-31" ∧
      badDateCfg.datum_till = some "2024-01-01" ∧
      lookupPayload (build_payload badDateCfg) "datumFran" =
        some (.pvStr "2024-12-31") ∧
      lookupPayload (build_payload badDateCfg) "datumTill" =
        some (.pvStr "2024-01-01") :=
  ⟨rfl, rfl,
    build_payload_carries_dates badDateCfg "2024-12-31" "2024-01-01"
      rfl (by decide) rfl (by decide)⟩

/-- C3 fails on the code for `fetch_matches_list_json`: an unwrapped
payload that is a list (not the expected dict with `"matchlista"`)
produces the normal return `[]` instead of raising `FogisDataError`. -/
theorem fetch_matches_list_shape_counterexample :
    fetch_matches_list_result (.ok (.arr [Json.num 1])) = .ok (.arr []) := rfl

/-- C3 amended: the single-object and list operations (here
`fetch_match_json` and `fetch_match_events_json`) raise
`FogisDataError` on a shape mismatch, but `fetch_matches_list_json`
instead silently returns the empty list whenever the unwrapped payload
is not a dict containing the `"matchlista"` key. -/
theorem shape_mismatch_handling (rd : Json)
    (hobj : isObjB rd = false) (harr : isArrB rd = false)
    (hml : matchesListShape rd = false) :
    fetch_match_extract rd =
      .error (.dataError ("Expected dictionary response but got " ++ pyTypeName rd)) ∧
    fetch_match_events_extract rd =
      .error (.dataError ("Expected list response but got " ++ pyTypeName rd)) ∧
    fetch_matches_list_result (.ok rd) = .ok (.arr []) := by
  refine ⟨?_, ?_, ?_⟩
  · cases rd <;> simp_all [isObjB, fetch_match_extract]
  · cases rd <;> simp_all [isArrB, fetch_match_events_extract]
  · cases rd <;>
      simp_all [matchesListShape, fetch_matches_list_result, fetch_matches_list_extract]

theorem shape_mismatch_handling_witness :
    isObjB (Json.str "oops") = false ∧ isArrB (Json.str "oops") = false ∧
      matchesListShape (Json.str "oops") = false ∧
      fetch_match_extract (Json.str "oops") =
        .error (.dataError "Expected dictionary response but got str") ∧
      fetch_match_events_extract (Json.str "oops") =
        .error (.dataError "Expected list response but got str") ∧
      fetch_matches_list_result (.ok (Json.str "oops")) = .ok (.arr []) :=
  ⟨rfl, rfl, rfl, shape_mismatch_handling (Json.str "oops") rfl rfl rfl⟩

/-- C4 fails on the code: `delete_match_event` catches
`FogisAPIRequestError` and converts it into the normal return `False`
rather than propagating it. -/
theorem delete_match_event_recovers_counterexample :
    delete_match_event_result
      (.error (.apiRequestError "API request failed: timeout")) = .ok false := rfl

/-- C4 amended: local recovery exists in exactly two operations:
`delete_match_event` converts `FogisAPIRequestError` and
`FogisDataError` (but not `FogisLoginError`) into `False`, and
`validate_cookies` converts `FogisLoginError` and
`FogisAPIRequestError` (but not `FogisDataError`) into `False`; the
fetch operations propagate every error unchanged. -/
theorem error_recovery_in_delete_and_validate (m : String) (e : FogisError) :
    delete_match_event_result (.error (.apiRequestError m)) = .ok false ∧
    delete_match_event_result (.error (.dataError m)) = .ok false ∧
    delete_match_event_result (.error (.loginError m)) = .error (.loginError m) ∧
    validate_cookies_result (some [("FogisMobilDomarKlient.ASPXAUTH", "token")])
      (.error (.loginError m)) = .ok false ∧
    validate_cookies_result (some [("FogisMobilDomarKlient.ASPXAUTH", "token")])
      (.error (.apiRequestError m)) = .ok false ∧
    validate_cookies_result (some [("FogisMobilDomarKlient.ASPXAUTH", "token")])
      (.error (.dataError m)) = .error (.dataError m) ∧
    fetch_matches_list_result (.error e) = .error e ∧
    fetch_match_result (.error e) = .error e ∧
    fetch_match_events_result (.error e) = .error e :=
  ⟨rfl, rfl, rfl, rfl, rfl, rfl, rfl, rfl, rfl⟩

theorem opUrls_no_mock : ∀ u ∈ opUrls, pyEndsWith u "HamtaMatchLista" = false := by
  decide

/-- C7: for every DomainClient operation endpoint, invoking the call
with no stored token performs exactly one authentication attempt, and
it happens before anything else; a failed authentication propagates
`FogisLoginError` and the RPC request is never issued; and no RPC
request is ever issued without a (truthy) token in hand. -/
theorem lazy_login_exactly_once (st : ApiState) (url method : String)
    (lo : LoginOutcome) (ro : RpcOutcome)
    (hurl : url ∈ opUrls) (hcook : st.cookies = none) :
    ((api_request st url method lo ro).1.head? = some Event.authAttempt ∧
      (api_request st url method lo ro).1.count Event.authAttempt = 1) ∧
    (∀ m, lo = .loginFail m →
      (api_request st url method lo ro).2.1 = .error (.loginError m) ∧
      ∀ b, Event.rpc b ∉ (api_request st url method lo ro).1) ∧
    (∀ (st' : ApiState) (lo' : LoginOutcome) (ro' : RpcOutcome) (b : Bool),
      Event.rpc b ∈ (api_request st' url method lo' ro').1 → b = true) := by
  have hmock := opUrls_no_mock url hurl
  refine ⟨?_, ?_, ?_⟩
  · cases lo with
    | loginFail m =>
      simp [api_request, hmock, hcook, truthy_cookies]
    | netFail m =>
      simp [api_request, hmock, hcook, truthy_cookies]
    | success c =>
      by_cases hc : c.isEmpty <;>
        [skip; (by_cases hm : method = "POST" ∨ method = "GET" <;> cases ro)] <;>
        simp [api_request, hmock, hcook, truthy_cookies, hc, *]
  · rintro m rfl
    simp [api_request, hmock, hcook, truthy_cookies]
  · intro st' lo' ro' b hb
    by_cases ht : truthy_cookies st'.cookies
    · by_cases hm : method = "POST" ∨ method = "GET" <;> cases ro' <;>
        simp_all [api_request, hmock, truthy_cookies]
    · cases lo' with
      | loginFail m => simp_all [api_request, hmock]
      | netFail m => simp_all [api_request, hmock]
      | success c =>
        by_cases hc : c.isEmpty <;>
          [skip; (by_cases hm : method = "POST" ∨ method = "GET" <;> cases ro')] <;>
          simp_all [api_request, hmock, truthy_cookies]

theorem lazy_login_exactly_once_witness :
    (BASE_URL ++ "/MatchWebMetoder.aspx/GetMatch") ∈ opUrls ∧
      (({ username := some "referee", cookies := none } : ApiState).cookies = none) ∧
      ((api_request { username := some "referee", cookies := none }
          (BASE_URL ++ "/MatchWebMetoder.aspx/GetMatch") "POST"
          (.loginFail "bad credentials") (.ok Json.null)).2.1 =
        .error (.loginError "bad credentials")) :=
  ⟨by decide, rfl,
    ((lazy_login_exactly_once { username := some "referee", cookies := none }
        (BASE_URL ++ "/MatchWebMetoder.aspx/GetMatch") "POST"
        (.loginFail "bad credentials") (.ok Json.null)
        (by decide) rfl).2.1 "bad credentials" rfl).1⟩

/-- C6: a well-formed response body whose top-level object lacks the
`"d"` key is returned whole by the unwrapping step, and the transport
call yields it as a normal payload without raising. -/
theorem missing_d_returns_whole_body (fields : List (String × Json))
    (hd : lookupField fields "d" = none) :
    unwrap_response (.obj fields) = .obj fields ∧
    ∀ (st : ApiState) (url method : String) (lo : LoginOutcome),
      pyEndsWith url "HamtaMatchLista" = false →
      truthy_cookies st.cookies = true →
      method = "POST" →
      (api_request st url method lo (.ok (.obj fields))).2.1 = .ok (.obj fields) := by
  have h1 : unwrap_response (.obj fields) = .obj fields := by
    simp [unwrap_response, hd]
  refine ⟨h1, ?_⟩
  rintro st url method lo hmock ht rfl
  simp [api_request, hmock, ht, h1]

theorem missing_d_returns_whole_body_witness :
    lookupField [("matcher", Json.arr [])] "d" = none ∧
      unwrap_response (.obj [("matcher", Json.arr [])]) =
        .obj [("matcher", Json.arr [])] ∧
      (api_request { username := none, cookies := some [("sid", "abc")] }
          (BASE_URL ++ "/MatchWebMetoder.aspx/GetMatch") "POST"
          (.success [("sid", "abc")])
          (.ok (.obj [("matcher", Json.arr [])]))).2.1 =
        .ok (.obj [("matcher", Json.arr [])]) := by
  refine ⟨rfl, ?_, ?_⟩
  · exact (missing_d_returns_whole_body [("matcher", Json.arr [])] rfl).1
  · exact (missing_d_returns_whole_body [("matcher", Json.arr [])] rfl).2
      { username := none, cookies := some [("sid", "abc")] }
      (BASE_URL ++ "/MatchWebMetoder.aspx/GetMatch") "POST"
      (.success [("sid", "abc")]) (by decide) rfl rfl

theorem lookupRec_updateRec (r : List (String × PyVal)) (f g : String) (v : PyVal) :
    lookupRec (updateRec r f v) g =
      if g = f then (lookupRec r f).map (fun _ => v) else lookupRec r g := by
  induction r with
  | nil => simp [updateRec, lookupRec]
  | cons head tail ih =>
    obtain ⟨k, w⟩ := head
    by_cases hk : k = g <;> by_cases hf : g = f <;>
      simp_all [updateRec, lookupRec]

theorem coerce_fold (fs : List String) (hnd : fs.Nodup) :
    ∀ r : List (String × PyVal),
      (∀ f ∈ fs, (lookupRec r f).all intableVal = true) →
      ∃ r', List.foldlM coerceNumericField r fs = .ok r' ∧
        (∀ f ∈ fs, lookupRec r' f = (lookupRec r f).map expectedCoerce) ∧
        (∀ g, g ∉ fs → lookupRec r' g = lookupRec r g) := by
  induction fs with
  | nil =>
    intro r _
    exact ⟨r, rfl, by simp, fun g _ => rfl⟩
  | cons f1 fs' ih =>
    intro r h
    have hnd' : fs'.Nodup := hnd.of_cons
    have hf1 : f1 ∉ fs' := (List.nodup_cons.mp hnd).1
    have h1 := h f1 (List.mem_cons_self _ _)
    have step : ∀ r1, coerceNumericField r f1 = .ok r1 →
        lookupRec r1 f1 = (lookupRec r f1).map expectedCoerce →
        (∀ g, g ≠ f1 → lookupRec r1 g = lookupRec r g) →
        ∃ r', List.foldlM coerceNumericField r (f1 :: fs') = .ok r' ∧
          (∀ f ∈ f1 :: fs', lookupRec r' f = (lookupRec r f).map expectedCoerce) ∧
          (∀ g, g ∉ f1 :: fs' → lookupRec r' g = lookupRec r g) := by
      intro r1 hstep hl1 hlg
      obtain ⟨r', hr', hco, hun⟩ := ih hnd' r1 (by
        intro f hf
        rw [hlg f (fun hEq => hf1 (hEq ▸ hf))]
        exact h f (List.mem_cons_of_mem _ hf))
      refine ⟨r', by rw [List.foldlM_cons, hstep]; exact hr', ?_, ?_⟩
      · intro f hf
        rcases List.mem_cons.mp hf with rfl | hf'
        · rw [hun f hf1, hl1]
        · rw [hco f hf', hlg f (fun hEq => hf1 (hEq ▸ hf'))]
      · intro g hg
        have hg1 : g ≠ f1 := fun hEq => hg (hEq ▸ List.mem_cons_self _ _)
        have hg' : g ∉ fs' := fun hmem => hg (List.mem_cons_of_mem _ hmem)
        rw [hun g hg', hlg g hg1]
    cases hl : lookupRec r f1 with
    | none =>
      refine step r (by simp [coerceNumericField, hl]) (by simp [hl]) (fun g _ => rfl)
    | some v =>
      rw [hl] at h1
      cases v with
      | vInt n =>
        refine step (updateRec r f1 (.vInt n))
          (by simp [coerceNumericField, hl]) ?_ ?_
        · rw [lookupRec_updateRec, if_pos rfl, hl]
          rfl
        · intro g hg
          rw [lookupRec_updateRec, if_neg hg]
      | vStr s =>
        simp only [Option.all_some, intableVal] at h1
        obtain ⟨n, hn⟩ := Option.isSome_iff_exists.mp h1
        refine step (updateRec r f1 (.vInt n))
          (by simp [coerceNumericField, hl, hn]) ?_ ?_
        · rw [lookupRec_updateRec, if_pos rfl, hl]
          simp [expectedCoerce, hn]
        · intro g hg
          rw [lookupRec_updateRec, if_neg hg]
      | vNone => simp [intableVal] at h1
      | vBool b => simp [intableVal] at h1

/-- C8: for every event record that has the four required fields and
whose numeric fields are ints or numeric strings, the payload built by
`report_match_event` has every present numeric field coerced to an
integer (numeric strings included), every required field an integer,
and every other field untouched.  The construction copies the record
(`dict(event_data)`), so the caller's record is the unmodified input
`ev`; in this pure embedding the payload is a separate value derived
from it. -/
theorem report_match_event_coerces (ev : List (String × PyVal))
    (hreq : ∀ f ∈ requiredEventFields, (lookupRec ev f).isSome = true)
    (hnum : ∀ f ∈ numericEventFields, (lookupRec ev f).all intableVal = true) :
    ∃ p, report_match_event_payload ev = .ok p ∧
      (∀ f ∈ numericEventFields, lookupRec p f = (lookupRec ev f).map expectedCoerce) ∧
      (∀ f ∈ requiredEventFields, ∃ n, lookupRec p f = some (.vInt n)) ∧
      (∀ g, g ∉ numericEventFields → lookupRec p g = lookupRec ev g) := by
  have hsub : ∀ f ∈ requiredEventFields, f ∈ numericEventFields := by
    intro f hf
    fin_cases hf <;> decide
  have hfind : requiredEventFields.find? (fun f => (lookupRec ev f).isNone) = none := by
    refine List.find?_eq_none.mpr (fun f hf => ?_)
    have := hreq f hf
    cases hl : lookupRec ev f <;> simp_all
  obtain ⟨p, hp, hco, hun⟩ := coerce_fold numericEventFields (by decide) ev hnum
  refine ⟨p, ?_, hco, ?_, hun⟩
  · simp [report_match_event_payload, hfind, hp]
  · intro f hf
    have hf' := hsub f hf
    have hc := hco f hf'
    have hs := hreq f hf
    have ha := hnum f hf'
    cases hl : lookupRec ev f with
    | none => rw [hl] at hs; simp at hs
    | some v =>
      rw [hl] at hc ha
      cases v with
      | vInt n => exact ⟨n, by rw [hc]; rfl⟩
      | vStr s =>
        simp only [Option.all_some, intableVal] at ha
        obtain ⟨n, hn⟩ := Option.isSome_iff_exists.mp ha
        exact ⟨n, by rw [hc]; simp [expectedCoerce, hn]⟩
      | vNone => simp [intableVal] at ha
      | vBool b => simp [intableVal] at ha

theorem report_match_event_coerces_witness :
    (∀ f ∈ requiredEventFields, (lookupRec exampleEvent f).isSome = true) ∧
      (∀ f ∈ numericEventFields, (lookupRec exampleEvent f).all intableVal = true) ∧
      ∃ p, report_match_event_payload exampleEvent = .ok p ∧
        (∀ f ∈ numericEventFields,
          lookupRec p f = (lookupRec exampleEvent f).map expectedCoerce) ∧
        (∀ f ∈ requiredEventFields, ∃ n, lookupRec p f = some (.vInt n)) ∧
        (∀ g, g ∉ numericEventFields → lookupRec p g = lookupRec exampleEvent g) :=
  ⟨by decide, by decide,
    report_match_event_coerces exampleEvent (by decide) (by decide)⟩

theorem digitChar_spec (d : Nat) (h : d < 10) :
    (digitChar d).isDigit = true ∧ (digitChar d).toNat = 48 + d := by
  interval_cases d <;> exact ⟨by decide, by decide⟩

theorem digitsToNat_append_digit (ds : List Char) (c : Char) :
    digitsToNat (ds ++ [c]) = 10 * digitsToNat ds + (c.toNat - 48) := by
  simp [digitsToNat, List.foldl_append]

theorem natToChars_spec (n : Nat) :
    natToChars n ≠ [] ∧ (∀ c ∈ natToChars n, c.isDigit = true) ∧
      digitsToNat (natToChars n) = n := by
  induction n using Nat.strong_induction_on with
  | _ n ih =>
    rw [natToChars]
    by_cases h : n < 10
    · rw [dif_pos h]
      refine ⟨by simp, ?_, ?_⟩
      · intro c hc
        rw [List.mem_singleton.mp hc]
        exact (digitChar_spec n h).1
      · simp [digitsToNat, (digitChar_spec n h).2]
    · rw [dif_neg h]
      obtain ⟨hne, hdig, hval⟩ := ih (n / 10) (Nat.div_lt_self (by omega) (by omega))
      have hd : n % 10 < 10 := Nat.mod_lt _ (by omega)
      refine ⟨by simp, ?_, ?_⟩
      · intro c hc
        rcases List.mem_append.mp hc with hc1 | hc2
        · exact hdig c hc1
        · rw [List.mem_singleton.mp hc2]
          exact (digitChar_spec _ hd).1
      · rw [digitsToNat_append_digit, hval, (digitChar_spec _ hd).2]
        omega

theorem takeWhile_all_append (p : Char → Bool) (ds rest : List Char)
    (hds : ∀ c ∈ ds, p c = true) (hrest : ∀ c, rest.head? = some c → p c = false) :
    (ds ++ rest).takeWhile p = ds ∧ (ds ++ rest).dropWhile p = rest := by
  induction ds with
  | nil =>
    simp only [List.nil_append]
    cases rest with
    | nil => exact ⟨rfl, rfl⟩
    | cons c r =>
      rw [List.takeWhile_cons, List.dropWhile_cons, hrest c rfl]
      exact ⟨rfl, rfl⟩
  | cons d ds ih =>
    obtain ⟨h1, h2⟩ := ih (fun c hc => hds c (List.mem_cons_of_mem _ hc))
    rw [List.cons_append, List.takeWhile_cons, List.dropWhile_cons,
      hds d (List.mem_cons_self _ _)]
    simp [h1, h2]

theorem pNumCore_natToChars (n : Nat) (rest : List Char) (hrest : digitFree rest) :
    pNumCore (natToChars n ++ rest) = some (n, rest) := by
  obtain ⟨hne, hdig, hval⟩ := natToChars_spec n
  obtain ⟨ht, hd⟩ := takeWhile_all_append Char.isDigit (natToChars n) rest hdig hrest
  rw [pNumCore, ht, hd]
  simp [hne, hval]

theorem natToChars_head_digit (n : Nat) :
    ∃ c t, natToChars n = c :: t ∧ c.isDigit = true := by
  obtain ⟨hne, hdig, _⟩ := natToChars_spec n
  cases h : natToChars n with
  | nil => exact absurd h hne
  | cons c t => exact ⟨c, t, rfl, hdig c (h ▸ List.mem_cons_self _ _)⟩

theorem pNum_intToChars (i : Int) (rest : List Char) (hrest : digitFree rest) :
    pNum (intToChars i ++ rest) = some (.num i, rest) := by
  by_cases hneg : i < 0
  · rw [intToChars, if_pos hneg, List.cons_append, pNum]
    rw [if_pos (show ('-' :: (natToChars i.natAbs ++ rest)).head? = some '-' from rfl),
      List.tail_cons, pNumCore_natToChars _ _ hrest]
    simp only [Option.map_some', Option.some.injEq, Prod.mk.injEq, Json.num.injEq]
    exact ⟨by omega, trivial⟩
  · rw [intToChars, if_neg hneg]
    obtain ⟨c, t, hct, hdig⟩ := natToChars_head_digit i.toNat
    have hcm : c ≠ '-' := by
      intro hEq
      rw [hEq] at hdig
      exact absurd hdig (by decide)
    rw [pNum, hct, List.cons_append]
    rw [if_neg (by simpa using hcm), ← List.cons_append, ← hct,
      pNumCore_natToChars _ _ hrest]
    simp only [Option.map_some', Option.some.injEq, Prod.mk.injEq, Json.num.injEq]
    exact ⟨by omega, trivial⟩

theorem digitFree_cons (c : Char) (r : List Char) (h : c.isDigit = false) :
    digitFree (c :: r) := by
  intro c' hc'
  rw [List.head?_cons, Option.some.injEq] at hc'
  rw [← hc']
  exact h

theorem digitFree_nil : digitFree [] := by
  intro c hc
  simp at hc

theorem pStrChars_escChars (s rest : List Char) :
    pStrChars (escChars s ++ '"' :: rest) = some (s, rest) := by
  induction s with
  | nil =>
    simp only [escChars, List.nil_append]
    rfl
  | cons c cs ih =>
    by_cases hc : c = '"' ∨ c = '\\'
    · rw [escChars, if_pos hc]
      show pStrLoop true (c :: (escChars cs ++ '"' :: rest)) = some (c :: cs, rest)
      rw [pStrLoop, if_pos hc]
      show Option.map (fun p => (c :: p.1, p.2))
        (pStrChars (escChars cs ++ '"' :: rest)) = some (c :: cs, rest)
      rw [ih]
      rfl
    · rw [escChars, if_neg hc]
      push_neg at hc
      show pStrLoop false (c :: (escChars cs ++ '"' :: rest)) = some (c :: cs, rest)
      rw [pStrLoop, if_neg hc.1, if_neg hc.2]
      show Option.map (fun p => (c :: p.1, p.2))
        (pStrChars (escChars cs ++ '"' :: rest)) = some (c :: cs, rest)
      rw [ih]
      rfl

theorem char_digit_ne (c : Char) (h : c.isDigit = true) :
    c ≠ 'n' ∧ c ≠ 't' ∧ c ≠ 'f' ∧ c ≠ '"' ∧ c ≠ '[' ∧ c ≠ '{' ∧
      c ≠ ']' ∧ c ≠ '}' ∧ c ≠ ',' ∧ c ≠ '-' := by
  refine ⟨?_, ?_, ?_, ?_, ?_, ?_, ?_, ?_, ?_, ?_⟩ <;>
    (intro hEq; rw [hEq] at h; exact absurd h (by decide))

theorem encodeJson_head (v : Json) :
    ∃ c t, encodeJson v = c :: t ∧ c ≠ ']' ∧ c ≠ '}' := by
  cases v with
  | null => exact ⟨'n', ['u', 'l', 'l'], by simp [encodeJson], by decide, by decide⟩
  | bool b =>
    cases b with
    | true => exact ⟨'t', ['r', 'u', 'e'], by simp [encodeJson], by decide, by decide⟩
    | false => exact ⟨'f', ['a', 'l', 's', 'e'], by simp [encodeJson], by decide, by decide⟩
  | num i =>
    by_cases hneg : i < 0
    · exact ⟨'-', natToChars i.natAbs, by simp [encodeJson, intToChars, hneg],
        by decide, by decide⟩
    · obtain ⟨c, t, hct, hdig⟩ := natToChars_head_digit i.toNat
      obtain ⟨_, _, _, _, _, _, h1, h2, _, _⟩ := char_digit_ne c hdig
      exact ⟨c, t, by simp [encodeJson, intToChars, hneg, hct], h1, h2⟩
  | str s =>
    exact ⟨'"', escChars s.data ++ ['"'], by simp [encodeJson], by decide, by decide⟩
  | arr es => exact ⟨'[', encodeElems es, by simp [encodeJson], by decide, by decide⟩
  | obj fs => exact ⟨'{', encodeFields fs, by simp [encodeJson], by decide, by decide⟩

theorem encodeJson_length_pos (v : Json) : 0 < (encodeJson v).length := by
  obtain ⟨c, t, hct, _, _⟩ := encodeJson_head v
  simp [hct]

theorem encodeElems_cons_length (v : Json) (vs : List Json) (h : vs ≠ []) :
    (encodeElems (v :: vs)).length =
      (encodeJson v).length + 1 + (encodeElems vs).length := by
  cases vs with
  | nil => exact absurd rfl h
  | cons w ws =>
    simp only [encodeElems, List.length_append, List.length_cons]
    omega

theorem encodeElems_elem_lt (es : List Json) (w : Json) (hw : w ∈ es) :
    (encodeJson w).length < (encodeElems es).length := by
  induction es with
  | nil => cases hw
  | cons v vs ih =>
    rcases List.mem_cons.mp hw with rfl | hw'
    · cases vs <;> simp [encodeElems]
    · have h1 := ih hw'
      have h2 : vs ≠ [] := List.ne_nil_of_mem hw'
      have h3 := encodeJson_length_pos v
      rw [encodeElems_cons_length v vs h2]
      omega

theorem encodeFields_cons_length (k1 : String) (v1 : Json)
    (fs : List (String × Json)) (h : fs ≠ []) :
    (encodeFields ((k1, v1) :: fs)).length =
      (escChars k1.data).length + 4 + (encodeJson v1).length +
        (encodeFields fs).length := by
  cases fs with
  | nil => exact absurd rfl h
  | cons hd tl =>
    obtain ⟨k2, v2⟩ := hd
    simp [encodeFields, List.length_append]
    omega

theorem encodeFields_elem_lt (fs : List (String × Json)) (k : String) (v : Json)
    (hv : (k, v) ∈ fs) :
    (encodeJson v).length < (encodeFields fs).length := by
  induction fs with
  | nil => cases hv
  | cons head tail ih =>
    obtain ⟨k1, v1⟩ := head
    rcases List.mem_cons.mp hv with hEq | hv'
    · obtain ⟨rfl, rfl⟩ := Prod.mk.inj hEq
      cases tail with
      | nil =>
        simp [encodeFields, List.length_append]
        omega
      | cons hd tl =>
        rw [encodeFields_cons_length k v (hd :: tl) (by simp)]
        omega
    · have h1 := ih hv'
      have h2 : tail ≠ [] := List.ne_nil_of_mem hv'
      rw [encodeFields_cons_length k1 v1 tail h2]
      omega

theorem pElems_encode (p : List Char → Option (Json × List Char)) :
    ∀ es : List Json,
      (∀ w ∈ es, ∀ r', digitFree r' → p (encodeJson w ++ r') = some (w, r')) →
      es ≠ [] → ∀ n, (encodeElems es).length < n → ∀ rest, digitFree rest →
      pElems p n (encodeElems es ++ rest) = some (es, rest) := by
  intro es
  induction es with
  | nil => exact fun _ h => absurd rfl h
  | cons v vs ih =>
    intro hp _ n hn rest hrest
    cases n with
    | zero => exact absurd hn (by omega)
    | succ n' =>
      cases vs with
      | nil =>
        have h1 : encodeElems [v] ++ rest = encodeJson v ++ (']' :: rest) := by
          simp [encodeElems]
        rw [h1]
        simp only [pElems,
          hp v (List.mem_cons_self _ _) (']' :: rest) (digitFree_cons _ _ (by decide)),
          List.head?_cons, List.tail_cons, reduceIte]
        rfl
      | cons w ws =>
        have h1 : encodeElems (v :: w :: ws) ++ rest =
            encodeJson v ++ (',' :: (encodeElems (w :: ws) ++ rest)) := by
          simp [encodeElems]
        have hbound : (encodeElems (w :: ws)).length < n' := by
          rw [encodeElems_cons_length v (w :: ws) (by simp)] at hn
          have := encodeJson_length_pos v
          omega
        rw [h1]
        simp only [pElems,
          hp v (List.mem_cons_self _ _) (',' :: (encodeElems (w :: ws) ++ rest))
            (digitFree_cons _ _ (by decide)),
          List.head?_cons, List.tail_cons, reduceIte,
          ih (fun u hu => hp u (List.mem_cons_of_mem _ hu)) (by simp) n' hbound rest hrest,
          Option.map_some']

theorem pFields_encode (p : List Char → Option (Json × List Char)) :
    ∀ fs : List (String × Json),
      (∀ k v, (k, v) ∈ fs → ∀ r', digitFree r' → p (encodeJson v ++ r') = some (v, r')) →
      fs ≠ [] → ∀ n, (encodeFields fs).length < n → ∀ rest, digitFree rest →
      pFields p n (encodeFields fs ++ rest) = some (fs, rest) := by
  intro fs
  induction fs with
  | nil => exact fun _ h => absurd rfl h
  | cons head tail ih =>
    obtain ⟨k, v⟩ := head
    intro hp _ n hn rest hrest
    cases n with
    | zero => exact absurd hn (by omega)
    | succ n' =>
      cases tail with
      | nil =>
        have h1 : encodeFields [(k, v)] ++ rest =
            '"' :: (escChars k.data ++ '"' :: (':' :: (encodeJson v ++ ('}' :: rest)))) := by
          simp [encodeFields]
        rw [h1]
        simp only [pFields, List.head?_cons, List.tail_cons, reduceIte,
          pStrChars_escChars,
          hp k v (List.mem_cons_self _ _) ('}' :: rest) (digitFree_cons _ _ (by decide))]
        rfl
      | cons hd tl =>
        have h1 : encodeFields ((k, v) :: hd :: tl) ++ rest =
            '"' :: (escChars k.data ++ '"' :: (':' ::
              (encodeJson v ++ (',' :: (encodeFields (hd :: tl) ++ rest))))) := by
          simp [encodeFields]
        have hbound : (encodeFields (hd :: tl)).length < n' := by
          rw [encodeFields_cons_length k v (hd :: tl) (by simp)] at hn
          omega
        rw [h1]
        simp only [pFields, List.head?_cons, List.tail_cons, reduceIte,
          pStrChars_escChars,
          hp k v (List.mem_cons_self _ _)
            (',' :: (encodeFields (hd :: tl) ++ rest)) (digitFree_cons _ _ (by decide)),
          ih (fun k' v' h' => hp k' v' (List.mem_cons_of_mem _ h')) (by simp)
            n' hbound rest hrest,
          Option.map_some']

theorem pVal_encode :
    ∀ fuel (v : Json) (rest : List Char), (encodeJson v).length < fuel →
      digitFree rest → pVal fuel (encodeJson v ++ rest) = some (v, rest) := by
  intro fuel
  induction fuel using Nat.strong_induction_on with
  | _ fuel ih =>
    intro v rest hlen hrest
    cases fuel with
    | zero => exact absurd hlen (by omega)
    | succ f =>
      cases v with
      | null =>
        have h1 : encodeJson Json.null ++ rest = 'n' :: ('u' :: 'l' :: 'l' :: rest) := by
          simp [encodeJson]
        rw [h1]
        rfl
      | bool b =>
        cases b with
        | true =>
          have h1 : encodeJson (Json.bool true) ++ rest =
              't' :: ('r' :: 'u' :: 'e' :: rest) := by
            simp [encodeJson]
          rw [h1]
          rfl
        | false =>
          have h1 : encodeJson (Json.bool false) ++ rest =
              'f' :: ('a' :: 'l' :: 's' :: 'e' :: rest) := by
            simp [encodeJson]
          rw [h1]
          rfl
      | num i =>
        by_cases hneg : i < 0
        · have h1 : encodeJson (Json.num i) ++ rest =
              '-' :: (natToChars i.natAbs ++ rest) := by
            simp [encodeJson, intToChars, hneg]
          rw [h1]
          show pNum ('-' :: (natToChars i.natAbs ++ rest)) = some (Json.num i, rest)
          have h2 : '-' :: (natToChars i.natAbs ++ rest) = intToChars i ++ rest := by
            simp [intToChars, hneg]
          rw [h2]
          exact pNum_intToChars i rest hrest
        · obtain ⟨c, t, hct, hdig⟩ := natToChars_head_digit i.toNat
          obtain ⟨hn', ht', hf', hq', hlb', hob', _, _, _, _⟩ := char_digit_ne c hdig
          have h1 : encodeJson (Json.num i) ++ rest = c :: (t ++ rest) := by
            simp [encodeJson, intToChars, hneg, hct]
          rw [h1]
          simp only [pVal]
          rw [if_neg hn', if_neg ht', if_neg hf', if_neg hq', if_neg hlb', if_neg hob',
            if_pos (Or.inr hdig)]
          have h2 : c :: (t ++ rest) = intToChars i ++ rest := by
            simp [intToChars, hneg, hct]
          rw [h2]
          exact pNum_intToChars i rest hrest
      | str s =>
        have h1 : encodeJson (Json.str s) ++ rest =
            '"' :: (escChars s.data ++ '"' :: rest) := by
          simp [encodeJson]
        rw [h1]
        show (pStrChars (escChars s.data ++ '"' :: rest)).map
          (fun p => (Json.str (String.mk p.1), p.2)) = some (Json.str s, rest)
        rw [pStrChars_escChars]
        rfl
      | arr es =>
        cases es with
        | nil =>
          have h1 : encodeJson (Json.arr []) ++ rest = '[' :: (']' :: rest) := by
            simp [encodeJson, encodeElems]
          rw [h1]
          rfl
        | cons w ws =>
          obtain ⟨c0, t0, hct0, hrb, _⟩ := encodeJson_head w
          have h1 : encodeJson (Json.arr (w :: ws)) ++ rest =
              '[' :: (encodeElems (w :: ws) ++ rest) := by
            simp [encodeJson]
          have h2 : encodeElems (w :: ws) = encodeJson w ++
              (match ws with | [] => [']'] | _ :: _ => ',' :: encodeElems ws) := by
            simp only [encodeElems]
            cases ws <;> rfl
          have hhead : ¬((encodeElems (w :: ws) ++ rest).head? = some ']') := by
            rw [h2, hct0]
            simp [hrb]
          have hlen' : (encodeElems (w :: ws)).length < f := by
            have h3 : (encodeJson (Json.arr (w :: ws))).length =
                1 + (encodeElems (w :: ws)).length := by
              simp [encodeJson]
              omega
            omega
          rw [h1]
          simp only [pVal, reduceIte]
          rw [if_neg hhead,
            pElems_encode (pVal f) (w :: ws)
              (fun u hu r' hr' => ih f (Nat.lt_succ_self f) u r'
                (lt_trans (encodeElems_elem_lt (w :: ws) u hu) hlen') hr')
              (by simp) f hlen' rest hrest]
          rfl
      | obj fs =>
        cases fs with
        | nil =>
          have h1 : encodeJson (Json.obj []) ++ rest = '{' :: ('}' :: rest) := by
            simp [encodeJson, encodeFields]
          rw [h1]
          rfl
        | cons hd tl =>
          obtain ⟨k1, v1⟩ := hd
          have h1 : encodeJson (Json.obj ((k1, v1) :: tl)) ++ rest =
              '{' :: (encodeFields ((k1, v1) :: tl) ++ rest) := by
            simp [encodeJson]
          have h2 : encodeFields ((k1, v1) :: tl) = '"' ::
              (escChars k1.data ++ ['"', ':'] ++ encodeJson v1 ++
                (match tl with | [] => ['}'] | _ :: _ => ',' :: encodeFields tl)) := by
            simp only [encodeFields]
            cases tl <;> rfl
          have hhead : ¬((encodeFields ((k1, v1) :: tl) ++ rest).head? = some '}') := by
            rw [h2]
            simp
          have hlen' : (encodeFields ((k1, v1) :: tl)).length < f := by
            have h3 : (encodeJson (Json.obj ((k1, v1) :: tl))).length =
                1 + (encodeFields ((k1, v1) :: tl)).length := by
              simp [encodeJson]
              omega
            omega
          rw [h1]
          simp only [pVal, reduceIte]
          rw [if_neg hhead,
            pFields_encode (pVal f) ((k1, v1) :: tl)
              (fun k' v' h' r' hr' => ih f (Nat.lt_succ_self f) v' r'
                (lt_trans (encodeFields_elem_lt ((k1, v1) :: tl) k' v' h') hlen') hr')
              (by simp) f hlen' rest hrest]
          rfl

/-- Round trip: the parser recovers every value from its compact
encoding (`json.loads(json.dumps(v)) == v`). -/
theorem json_loads_dumps (v : Json) : json_loads (json_dumps v) = some v := by
  have h : pVal ((encodeJson v).length + 1) (encodeJson v ++ []) = some (v, []) :=
    pVal_encode ((encodeJson v).length + 1) v [] (by omega) digitFree_nil
  rw [List.append_nil] at h
  show (match pVal ((encodeJson v).length + 1) (encodeJson v) with
    | some (w, []) => some w
    | _ => none) = some v
  rw [h]

/-- C5 fails on the code for string payloads: take v to be the JSON
string "123".  Given `{"d": v}` the unwrapping sees a string `"d"`
value, parses it a second time and returns the number 123, which is not
v — so the two response forms do not always yield the same value. -/
theorem unwrap_double_parse_counterexample :
    unwrap_response (.obj [("d", .str "123")]) = .num 123 ∧
      Json.num 123 ≠ Json.str "123" :=
  ⟨rfl, fun h => Json.noConfusion h⟩

/-- C5 amended: for every JSON value v that is not a string whose
contents themselves parse as JSON, the transport yields the identical
decoded value v whether the body is `{"d": s}` with s the JSON encoding
of v or `{"d": v}` with v in structured form.  (For a string v whose
contents parse as JSON, the second form is double-parsed instead.) -/
theorem unwrap_encoding_agnostic (v : Json)
    (hv : ∀ s, v = Json.str s → json_loads s = none) :
    unwrap_response (.obj [("d", .str (json_dumps v))]) = v ∧
      unwrap_response (.obj [("d", v)]) = v := by
  constructor
  · simp [unwrap_response, lookupField, json_loads_dumps v]
  · cases v with
    | str s =>
      have h := hv s rfl
      simp [unwrap_response, lookupField, h]
    | null => rfl
    | bool b => rfl
    | num n => rfl
    | arr es => rfl
    | obj fs => rfl

theorem unwrap_encoding_agnostic_witness :
    unwrap_response
        (.obj [("d", .str (json_dumps (Json.obj [("matchlista", Json.arr [])])))]) =
      Json.obj [("matchlista", Json.arr [])] ∧
    unwrap_response (.obj [("d", Json.obj [("matchlista", Json.arr [])])]) =
      Json.obj [("matchlista", Json.arr [])] :=
  unwrap_encoding_agnostic (Json.obj [("matchlista", Json.arr [])])
    (fun _ h => Json.noConfusion h)
